import Mathlib

/-!
Verification of the sparse-matrix storage module (torch_sparse/storage.py).

The module stores a pair of coordinate rows (the 2 x nnz long tensor named index),
an optional parallel value array, the logical sparse_size, and six lazily derived
caches (rowcount, rowptr, colcount, colptr, csr2csc, csc2csr).  Tensors of long
dtype are embedded as lists of integers; permutation tensors as lists of positions;
assertion failures and runtime errors are embedded as the none case of Option.
External numeric primitives (argsort, pointer construction, scatter_add of ones,
segmented reduction) are modelled from their stated contracts, as noted on each.
-/

namespace TorchSparse

/-- Layout tags, the layouts list of the source. -/
inductive Layout
  | coo
  | csr
  | csc
deriving DecidableEq

/-- Function get_layout: a missing tag defaults to coo (with a non-fatal warning). -/
def get_layout (layout : Option Layout) : Layout := layout.getD Layout.coo

/-- The sentinel-prefixed shifted copy of a key list used by the descent and
duplicate masks: torch.cat([sentinel, idx[:-1]]). -/
def prevList (x : Int) (k : List Int) : List Int := x :: k.dropLast

/-- Boolean-mask selection, tensor[mask]. -/
def maskSelect {α : Type} : List Bool → List α → List α
  | true :: m, a :: l => a :: maskSelect m l
  | false :: m, _ :: l => maskSelect m l
  | _, _ => []

/-- Inclusive running sum, tensor.cumsum(0). -/
def cumsumI (l : List Int) : List Int := (l.scanl (· + ·) 0).drop 1

/-- Zero-prefixed running sum: colcount.new_zeros(n + 1) followed by
torch.cumsum(colcount, dim=0, out=colptr[1:]). -/
def cumsum0 (l : List Int) : List Int := l.scanl (· + ·) 0

/-- Comparison used to model the backend's stable argsort: positions ordered by
key, ties broken by position. -/
def keyRel {α : Type} [LinearOrder α] [Inhabited α] (k : List α) (i j : Nat) : Prop :=
  k.getD i default < k.getD j default ∨ (k.getD i default = k.getD j default ∧ i ≤ j)

instance keyRelDecidable {α : Type} [LinearOrder α] [Inhabited α] (k : List α) :
    DecidableRel (keyRel k) := fun _ _ => by
  unfold keyRel; exact inferInstance

instance keyRelTotal {α : Type} [LinearOrder α] [Inhabited α] (k : List α) :
    IsTotal Nat (keyRel k) where
  total i j := by
    unfold keyRel
    rcases lt_trichotomy (k.getD i default) (k.getD j default) with h | h | h
    · exact Or.inl (Or.inl h)
    · rcases Nat.le_total i j with hij | hij
      · exact Or.inl (Or.inr ⟨h, hij⟩)
      · exact Or.inr (Or.inr ⟨h.symm, hij⟩)
    · exact Or.inr (Or.inl h)

instance keyRelTrans {α : Type} [LinearOrder α] [Inhabited α] (k : List α) :
    IsTrans Nat (keyRel k) where
  trans i j m hij hjm := by
    unfold keyRel at *
    rcases hij with h1 | ⟨h1, h1'⟩
    · rcases hjm with h2 | ⟨h2, _⟩
      · exact Or.inl (h1.trans h2)
      · exact Or.inl (h2 ▸ h1)
    · rcases hjm with h2 | ⟨h2, h2'⟩
      · exact Or.inl (h1 ▸ h2)
      · exact Or.inr ⟨h1.trans h2, h1'.trans h2'⟩

instance keyRelAntisymm {α : Type} [LinearOrder α] [Inhabited α] (k : List α) :
    IsAntisymm Nat (keyRel k) where
  antisymm i j hij hji := by
    unfold keyRel at *
    rcases hij with h1 | ⟨h1, h1'⟩
    · rcases hji with h2 | ⟨h2, _⟩
      · exact absurd (h1.trans h2) (lt_irrefl _)
      · exact absurd h1 (by rw [h2]; exact lt_irrefl _)
    · rcases hji with h2 | ⟨h2, h2'⟩
      · exact absurd h2 (by rw [h1]; exact lt_irrefl _)
      · exact Nat.le_antisymm h1' h2'

/-- Modelled from the spec: the external backend's stable argsort over a key
sequence (Tensor.argsort): the positions 0..n-1 reordered so that keys are
non-decreasing, equal keys keeping their original relative order. -/
def argsort {α : Type} [LinearOrder α] [Inhabited α] (k : List α) : List Nat :=
  List.insertionSort (keyRel k) (List.range k.length)

/-- Modelled from the spec: the external pointer-construction primitive
(rowptr_cpu.rowptr or rowptr_cuda.rowptr, selected by data residency, neither
present under src/): given a sorted sequence of bucket ids and a bucket count m,
produce the m+1-length offset array whose i-th entry counts the ids smaller
than i. -/
def rowptrPrim (ids : List Int) (m : Nat) : List Int :=
  (List.range (m + 1)).map fun (i : Nat) => ((ids.filter fun b => decide (b < (i : Int))).length : Int)

/-- Modelled from the spec: scatter_add(torch.ones_like(col), col, dim_size),
the segmented-increment reduction of the external backend: bucket j receives one
count for every coordinate equal to j. -/
def scatter_add_ones (col : List Int) (dim_size : Nat) : List Int :=
  (List.range dim_size).map fun (j : Nat) => ((col.filter fun c => decide (c = (j : Int))).length : Int)

/-- Modelled from the spec: the external segmented-reduction primitive
(torch_scatter.segment_csr as invoked by coalesce): given contiguous group ids
and a source array, produce one reduced value per group id 0..max. -/
def segment_csr (ids : List Int) (src : List Int) (reduce : List Int → Int) : List Int :=
  (List.range (ids.foldr max (-1) + 1).toNat).map fun (g : Nat) =>
    reduce (maskSelect (ids.map fun i => decide (i = (g : Int))) src)

/-- State of a SparseStorage instance: the two coordinate rows of the index
tensor, the optional value array, sparse_size, and the six optional derived
caches (the underscore-prefixed attributes of the source). -/
structure SparseStorage where
  row : List Int
  col : List Int
  value : Option (List Int)
  sparse_size : Nat × Nat
  _rowcount : Option (List Int)
  _rowptr : Option (List Int)
  _colcount : Option (List Int)
  _colptr : Option (List Int)
  _csr2csc : Option (List Nat)
  _csc2csr : Option (List Nat)
deriving DecidableEq

/-- Modelled from the spec: nnz, the number of stored entries, index.size(1)
(the method body is not under src/). -/
def SparseStorage.nnz (s : SparseStorage) : Nat := s.row.length

/-- Row-major linearized keys num_cols * row + col for given coordinate rows. -/
def linKeysOf (numCols : Nat) (row col : List Int) : List Int :=
  List.zipWith (fun r c => (numCols : Int) * r + c) row col

/-- Row-major linearized keys of a storage instance, sparse_size(1) * row + col. -/
def SparseStorage.linKeys (s : SparseStorage) : List Int :=
  linKeysOf s.sparse_size.2 s.row s.col

/-- Column-major linearized keys num_rows * col + row for given coordinate rows. -/
def colKeysOf (numRows : Nat) (row col : List Int) : List Int :=
  List.zipWith (fun r c => (numRows : Int) * c + r) row col

/-- The default sparse_size, torch.Size((index.max(dim=-1)[0] + 1).tolist());
max over an empty tensor raises, modelled as none. -/
def defaultSize (row col : List Int) : Option (Nat × Nat) :=
  match row, col with
  | r0 :: rs, c0 :: cs => some (((rs.foldl max r0) + 1).toNat, ((cs.foldl max c0) + 1).toNat)
  | _, _ => none

/-- The validation guards of the constructor (its assert statements): equal
coordinate lengths, value parallel to index, and the exact length required of
each supplied derived array. -/
def initGuards (row col : List Int) (value : Option (List Int)) (sz : Nat × Nat)
    (rowcount rowptr colcount colptr : Option (List Int))
    (csr2csc csc2csr : Option (List Nat)) : Bool :=
  (row.length == col.length)
    && (value.all fun v => v.length == row.length)
    && (rowcount.all fun a => a.length == sz.1)
    && (rowptr.all fun a => a.length == sz.1 + 1)
    && (colcount.all fun a => a.length == sz.2)
    && (colptr.all fun a => a.length == sz.2 + 1)
    && (csr2csc.all fun p => p.length == row.length)
    && (csc2csr.all fun p => p.length == row.length)

/-- The descent test of the constructor: any position whose key is smaller than
its predecessor, with a zero sentinel before the first key,
(idx < torch.cat([idx.new_zeros(1), idx[:-1]])).any(). -/
def needsSort (idx : List Int) : Bool :=
  ((prevList 0 idx).zip idx).any fun ab => decide (ab.2 < ab.1)

/-- The constructor SparseStorage.__init__: validation guards, default
sparse_size, and the sort-if-needed normalization step.  When a sort is
performed, index and value are permuted by the argsort of the linear keys and
any supplied csr2csc / csc2csr is discarded; none models an assertion or
runtime failure. -/
def SparseStorage.init (row col : List Int) (value : Option (List Int))
    (sparse_size : Option (Nat × Nat))
    (rowcount rowptr colcount colptr : Option (List Int))
    (csr2csc csc2csr : Option (List Nat)) (is_sorted : Bool) : Option SparseStorage :=
  match (match sparse_size with
         | some sz => some sz
         | none => defaultSize row col) with
  | none => none
  | some sz =>
    if initGuards row col value sz rowcount rowptr colcount colptr csr2csc csc2csr then
      if is_sorted then
        some ⟨row, col, value, sz, rowcount, rowptr, colcount, colptr, csr2csc, csc2csr⟩
      else
        if needsSort (linKeysOf sz.2 row col) then
          some ⟨(argsort (linKeysOf sz.2 row col)).map (fun i => row.getD i 0),
                (argsort (linKeysOf sz.2 row col)).map (fun i => col.getD i 0),
                value.map (fun v => (argsort (linKeysOf sz.2 row col)).map fun i => v.getD i 0),
                sz, rowcount, rowptr, colcount, colptr, none, none⟩
        else
          some ⟨row, col, value, sz, rowcount, rowptr, colcount, colptr, csr2csc, csc2csr⟩
    else none

/-- Cached property rowptr: the cached array if present, otherwise the pointer
primitive applied to the row coordinates and sparse_size(0). -/
def SparseStorage.rowptr (s : SparseStorage) : List Int :=
  match s._rowptr with
  | some v => v
  | none => rowptrPrim s.row s.sparse_size.1

/-- Cached property rowcount: the cached array if present, otherwise
rowptr[1:] - rowptr[:-1]. -/
def SparseStorage.rowcount (s : SparseStorage) : List Int :=
  match s._rowcount with
  | some v => v
  | none => List.zipWith (· - ·) (s.rowptr.drop 1) s.rowptr.dropLast

/-- Cached property colcount: the cached array if present; else the difference
of a materialized colptr; else scatter_add of ones over the columns. -/
def SparseStorage.colcount (s : SparseStorage) : List Int :=
  match s._colcount with
  | some v => v
  | none =>
    match s._colptr with
    | some cp => List.zipWith (· - ·) (cp.drop 1) cp.dropLast
    | none => scatter_add_ones s.col s.sparse_size.2

/-- Cached property csr2csc: the cached permutation if present, otherwise the
argsort of the column-major keys sparse_size(0) * col + row. -/
def SparseStorage.csr2csc (s : SparseStorage) : List Nat :=
  match s._csr2csc with
  | some p => p
  | none => argsort (colKeysOf s.sparse_size.1 s.row s.col)

/-- Cached property csc2csr: the cached permutation if present, otherwise the
argsort of csr2csc. -/
def SparseStorage.csc2csr (s : SparseStorage) : List Nat :=
  match s._csc2csr with
  | some p => p
  | none => argsort s.csr2csc

/-- Cached property colptr.  The source branches on the raw tensor truthiness
of the materialized csr2csc permutation: a tensor of more than one element (or
an empty one) raises a RuntimeError, modelled as none; a one-element tensor is
truthy exactly when its element is nonzero. -/
def SparseStorage.colptr (s : SparseStorage) : Option (List Int) :=
  match s._colptr with
  | some v => some v
  | none =>
    match s._csr2csc with
    | none => some (cumsum0 s.colcount)
    | some p =>
      if p.length = 1 then
        if p.getD 0 0 ≠ 0 then
          some (rowptrPrim (s.csr2csc.map fun i => s.col.getD i 0) s.sparse_size.2)
        else some (cumsum0 s.colcount)
      else none

/-- Values given to the setters: a scalar (int or float) or a tensor. -/
inductive SValue
  | scalar (c : Int)
  | tensor (t : List Int)

/-- The scalar branch of the setters calls torch.full((nnz,), device=...) with
the required fill_value argument absent, a TypeError in the source; modelled
as none. -/
def torch_full_missing_fill (_n : Nat) : Option (List Int) := none

/-- Method set_value_ (in place): scalar broadcast via the faulty torch.full
call; a csc-tagged tensor is permuted by csc2csr; the length assert re-checked. -/
def SparseStorage.set_value_ (s : SparseStorage) (v : SValue) (layout : Option Layout) :
    Option SparseStorage :=
  match v with
  | SValue.scalar _ =>
    (torch_full_missing_fill s.nnz).bind fun val =>
      if val.length = s.nnz then some { s with value := some val } else none
  | SValue.tensor t =>
    let t' := if get_layout layout = Layout.csc then s.csc2csr.map (fun i => t.getD i 0) else t
    if t'.length = s.nnz then some { s with value := some t' } else none

/-- Method set_value (pure): same value computation, then a fresh instance via
the constructor with every cached field carried over and is_sorted true. -/
def SparseStorage.set_value (s : SparseStorage) (v : SValue) (layout : Option Layout) :
    Option SparseStorage :=
  match v with
  | SValue.scalar _ =>
    (torch_full_missing_fill s.nnz).bind fun val =>
      if val.length = s.nnz then
        SparseStorage.init s.row s.col (some val) (some s.sparse_size) s._rowcount s._rowptr
          s._colcount s._colptr s._csr2csc s._csc2csr true
      else none
  | SValue.tensor t =>
    let t' := if get_layout layout = Layout.csc then s.csc2csr.map (fun i => t.getD i 0) else t
    if t'.length = s.nnz then
      SparseStorage.init s.row s.col (some t') (some s.sparse_size) s._rowcount s._rowptr
        s._colcount s._colptr s._csr2csc s._csc2csr true
    else none

/-- Method sparse_resize: growing appends zeros to counts and nnz to pointers;
shrinking slices with stop index -(diff) where diff = new - old is
non-positive, so the source keeps the first old - new entries.  The result goes
through the constructor (is_sorted true), whose length asserts re-run. -/
def SparseStorage.sparse_resize (s : SparseStorage) (sizes : Nat × Nat) : Option SparseStorage :=
  let nnz := s.nnz
  let old := s.sparse_size
  let rowcount := s._rowcount.map fun rc =>
    if old.1 < sizes.1 then rc ++ List.replicate (sizes.1 - old.1) 0
    else rc.take (old.1 - sizes.1)
  let rowptr := s._rowptr.map fun rp =>
    if old.1 < sizes.1 then rp ++ List.replicate (sizes.1 - old.1) (nnz : Int)
    else rp.take (old.1 - sizes.1)
  let colcount := s._colcount.map fun cc =>
    if old.2 < sizes.2 then cc ++ List.replicate (sizes.2 - old.2) 0
    else cc.take (old.2 - sizes.2)
  let colptr := s._colptr.map fun cp =>
    if old.2 < sizes.2 then cp ++ List.replicate (sizes.2 - old.2) (nnz : Int)
    else cp.take (old.2 - sizes.2)
  SparseStorage.init s.row s.col s.value (some sizes) rowcount rowptr colcount colptr
    s._csr2csc s._csc2csr true

/-- The first-occurrence mask of coalesce:
idx > torch.cat([idx.new_full((1,), -1), idx[:-1]]). -/
def coalesceMask (idx : List Int) : List Bool :=
  ((prevList (-1) idx).zip idx).map fun ab => decide (ab.1 < ab.2)

/-- Method is_coalesced: the first-occurrence mask holds everywhere. -/
def SparseStorage.is_coalesced (s : SparseStorage) : Bool :=
  (coalesceMask s.linKeys).all id

/-- Method coalesce: if the mask holds everywhere return the very same
instance; otherwise filter index by the mask, segment-reduce value by the
group ids mask.cumsum(0) - 1, and build a fresh instance with is_sorted true. -/
def SparseStorage.coalesce (s : SparseStorage) (reduce : List Int → Int) :
    Option SparseStorage :=
  let idx := s.linKeys
  let mask := coalesceMask idx
  if mask.all id then some s
  else
    let row' := maskSelect mask s.row
    let col' := maskSelect mask s.col
    let value' := s.value.map fun v =>
      let gids := (cumsumI (mask.map fun b => if b then (1 : Int) else 0)).map (· - 1)
      segment_csr gids v reduce
    SparseStorage.init row' col' value' (some s.sparse_size) none none none none none none true

/-- State of a scoped no_cache guard: the saved prior flag. -/
structure NoCacheGuard where
  prev : Bool

/-- Guard entry, no_cache.__enter__ acting on the process-wide flag: save the
current flag and set it to disabled. -/
def no_cache_enter (enabled : Bool) : NoCacheGuard × Bool := (⟨enabled⟩, false)

/-- Guard exit, no_cache.__exit__: restore the saved flag. -/
def no_cache_exit (g : NoCacheGuard) (_enabled : Bool) : Bool := g.prev

/-- One read through cached_property.__get__: return the cached value when the
attribute is set; otherwise compute, storing the result only when the flag is
enabled.  The result triple is the returned value, the attribute after the
read, and whether the compute function ran. -/
def cached_property_read {α : Type} (func : α) (cache : Option α) (enabled : Bool) :
    α × Option α × Bool :=
  match cache with
  | some v => (v, some v, false)
  | none => (func, if enabled then some func else none, true)

/-! Supporting lemmas on the modelled primitives. -/

theorem argsort_sorted {α : Type} [LinearOrder α] [Inhabited α] (k : List α) :
    (argsort k).Sorted (keyRel k) :=
  List.sorted_insertionSort _ _

theorem argsort_perm {α : Type} [LinearOrder α] [Inhabited α] (k : List α) :
    List.Perm (argsort k) (List.range k.length) :=
  List.perm_insertionSort _ _

theorem mem_argsort_lt {α : Type} [LinearOrder α] [Inhabited α] {k : List α} {i : Nat}
    (h : i ∈ argsort k) : i < k.length :=
  List.mem_range.mp ((argsort_perm k).mem_iff.mp h)

theorem sorted_map_getD {α : Type} [LinearOrder α] [Inhabited α] (k : List α) (l : List Nat)
    (h : l.Sorted (keyRel k)) : (l.map fun i => k.getD i default).Sorted (· ≤ ·) :=
  List.Pairwise.map _ (fun _ _ hab => hab.elim le_of_lt fun x => le_of_eq x.1) h

theorem prevZip_cons (x a : Int) (l : List Int) :
    (prevList x (a :: l)).zip (a :: l) = (x, a) :: (prevList a l).zip l := by
  cases l <;> simp [prevList]

theorem noDescent_chain : ∀ (x : Int) (k : List Int),
    (((prevList x k).zip k).any fun ab => decide (ab.2 < ab.1)) = false →
      List.Chain' (· ≤ ·) k ∧ ∀ y ∈ k.head?, x ≤ y := by
  intro x k
  induction k generalizing x with
  | nil => intro _; exact ⟨List.chain'_nil, by simp⟩
  | cons a l ih =>
    intro h
    rw [prevZip_cons] at h
    simp only [List.any_cons, Bool.or_eq_false_iff, decide_eq_false_iff_not, not_lt] at h
    obtain ⟨hc, hh⟩ := ih a (by simpa using h.2)
    refine ⟨List.chain'_cons'.mpr ⟨hh, hc⟩, ?_⟩
    simp only [List.head?_cons, Option.mem_def, Option.some.injEq]
    rintro y rfl
    exact h.1

theorem getD_zipWith {α β γ : Type} [Inhabited α] [Inhabited β] [Inhabited γ]
    (f : α → β → γ) (as : List α) (bs : List β) (i : Nat)
    (ha : i < as.length) (hb : i < bs.length) :
    (List.zipWith f as bs).getD i default = f (as.getD i default) (bs.getD i default) := by
  have hz : i < (List.zipWith f as bs).length := by
    rw [List.length_zipWith]; omega
  rw [List.getD_eq_getElem _ _ hz, List.getD_eq_getElem _ _ ha, List.getD_eq_getElem _ _ hb]
  exact List.getElem_zipWith

/-! Theorems. -/

/-- C1, counterexample: a valid construction input (equal-length non-negative
coordinate rows) with the is_sorted hint true and an unsorted index produces a
storage whose linearized keys row * num_cols + col are not non-decreasing. -/
theorem init_any_hint_not_sorted :
    (SparseStorage.init [1, 0] [0, 1] none (some (2, 2)) none none none none none none
        true).map SparseStorage.linKeys = some [2, 1]
      ∧ ¬ List.Sorted (· ≤ ·) ([2, 1] : List Int) :=
  ⟨rfl, by decide⟩

/-- C2: coalescing the storage built from coordinates (0,1),(0,1),(1,0) with
values 1,2,3 and sparse size (2,2) under the sum reduction yields coordinates
(0,1),(1,0) and values 3,3. -/
theorem coalesce_sum_example :
    ((SparseStorage.init [0, 0, 1] [1, 1, 0] (some [1, 2, 3]) (some (2, 2)) none none none
        none none none false).bind fun s => s.coalesce fun l => l.foldr (· + ·) 0).map
      (fun s => (s.row, s.col, s.value)) = some ([0, 1], [1, 0], some [3, 3]) := by
  decide

/-- C3, failing input evaluation: on a storage of size (2,2) with rowcount
[1,1] and rowptr [0,1,2] materialized, resizing to (3,2) and back to (2,2)
does not restore the arrays: the shrink branch keeps the first old - new
entries, after which the constructor's own length assert fails. -/
theorem sparse_resize_roundtrip_fails :
    ((SparseStorage.init [0, 1] [0, 1] none (some (2, 2)) (some [1, 1]) (some [0, 1, 2])
        none none none none true).bind fun s =>
      (s.sparse_resize (3, 2)).bind fun t => t.sparse_resize (2, 2)) = none := by
  decide

/-- C4, failing input evaluation: on a one-entry storage, both value setters
given the scalar 5 reach the torch.full call whose required fill_value argument
is absent in the source, so neither stores a value array. -/
theorem set_value_scalar_raises :
    (SparseStorage.init [0] [0] none (some (1, 1)) none none none none none none true).map
      (fun s => ((s.set_value_ (SValue.scalar 5) none).isNone,
                 (s.set_value (SValue.scalar 5) none).isNone)) = some (true, true) := by
  decide

/-- C5, failing input evaluation: on a two-entry storage with csr2csc = [0, 1]
materialized and no cached colptr, reading colptr evaluates the raw truthiness
of the permutation tensor and raises, instead of applying the pointer primitive
to col[csr2csc] and returning normally. -/
theorem colptr_truthiness_raises :
    (SparseStorage.init [0, 1] [0, 1] none (some (2, 2)) none none none none (some [0, 1])
        none true).map SparseStorage.colptr = some none := by
  decide

/-- C9: with the cache flag disabled, a read of an uncached derived property
runs the compute function, stores nothing on the instance (so an immediately
following read runs it again), and returns the same value an enabled read
returns; the scoped guard sets the flag to disabled on entry and restores the
exact prior value on exit, so nested guards restore correctly. -/
theorem cache_disable_semantics {α : Type} (func : α) (p : Bool) :
    cached_property_read func none false = (func, none, true)
      ∧ (cached_property_read func (cached_property_read func none false).2.1 false).2.2 = true
      ∧ (cached_property_read func none false).1 = (cached_property_read func none true).1
      ∧ (no_cache_enter p).2 = false
      ∧ no_cache_exit (no_cache_enter p).1 (no_cache_enter p).2 = p
      ∧ no_cache_exit (no_cache_enter p).1
          (no_cache_exit (no_cache_enter (no_cache_enter p).2).1
            (no_cache_enter (no_cache_enter p).2).2) = p :=
  ⟨rfl, rfl, rfl, rfl, rfl, rfl⟩

/-- C10: with is_sorted true the constructor performs no sortedness check and
no reordering: index, value and every supplied derived array (csr2csc and
csc2csr included) are stored exactly as given, whether or not the index is
actually sorted, whenever the length asserts pass. -/
theorem init_sorted_true_stores_given (row col : List Int) (value : Option (List Int))
    (sz : Nat × Nat) (rowcount rowptr colcount colptr : Option (List Int))
    (csr2csc csc2csr : Option (List Nat))
    (hg : initGuards row col value sz rowcount rowptr colcount colptr csr2csc csc2csr = true) :
    SparseStorage.init row col value (some sz) rowcount rowptr colcount colptr csr2csc
      csc2csr true
      = some ⟨row, col, value, sz, rowcount, rowptr, colcount, colptr, csr2csc, csc2csr⟩ := by
  unfold SparseStorage.init
  simp [hg]

/-- Witness for C10 at an unsorted index with all derived arrays supplied. -/
theorem init_sorted_true_stores_given_witness :
    SparseStorage.init [1, 0] [0, 1] (some [7, 8]) (some (2, 2)) (some [1, 1])
      (some [0, 1, 2]) (some [1, 1]) (some [0, 1, 2]) (some [1, 0]) (some [1, 0]) true
      = some ⟨[1, 0], [0, 1], some [7, 8], (2, 2), some [1, 1], some [0, 1, 2], some [1, 1],
              some [0, 1, 2], some [1, 0], some [1, 0]⟩ :=
  init_sorted_true_stores_given _ _ _ _ _ _ _ _ _ _ (by decide)

/-- C1, amended: for every valid construction input with the is_sorted hint
false, the storage the Normalizer produces has its linearized keys
row * num_cols + col non-decreasing across the stored sequence. -/
theorem init_unsorted_hint_sorts (row col : List Int) (value : Option (List Int))
    (sparse_size : Option (Nat × Nat)) (rowcount rowptr colcount colptr : Option (List Int))
    (csr2csc csc2csr : Option (List Nat)) (s : SparseStorage)
    (h : SparseStorage.init row col value sparse_size rowcount rowptr colcount colptr
        csr2csc csc2csr false = some s) :
    s.linKeys.Sorted (· ≤ ·) := by
  unfold SparseStorage.init at h
  split at h
  · exact absurd h (by simp)
  split at h
  · split at h
    · rename_i hcontra
      exact absurd hcontra (by simp)
    · split at h
      · rename_i sz hsz hg hcontra hns
        injection h with h'
        subst h'
        have hlk : (SparseStorage.mk ((argsort (linKeysOf sz.2 row col)).map fun i => row.getD i 0)
              ((argsort (linKeysOf sz.2 row col)).map fun i => col.getD i 0)
              (value.map fun v => (argsort (linKeysOf sz.2 row col)).map fun i => v.getD i 0)
              sz rowcount rowptr colcount colptr none none).linKeys
            = (argsort (linKeysOf sz.2 row col)).map
                fun i => (linKeysOf sz.2 row col).getD i default := by
          show List.zipWith _ _ _ = _
          rw [List.zipWith_map, List.zipWith_same]
          apply List.map_congr_left
          intro i hi
          have hi' : i < (linKeysOf sz.2 row col).length := mem_argsort_lt hi
          have hrow : i < row.length := by
            have h2 := hi'; unfold linKeysOf at h2; rw [List.length_zipWith] at h2; omega
          have hcol : i < col.length := by
            have h2 := hi'; unfold linKeysOf at h2; rw [List.length_zipWith] at h2; omega
          have h3 := getD_zipWith (fun r c => (sz.2 : Int) * r + c) row col i hrow hcol
          unfold linKeysOf
          rw [h3]
          rfl
        rw [hlk]
        exact sorted_map_getD _ _ (argsort_sorted _)
      · rename_i sz hsz hg hcontra hns
        injection h with h'
        subst h'
        have hc := noDescent_chain 0 (linKeysOf sz.2 row col) (by simpa [needsSort] using hns)
        exact List.chain'_iff_pairwise.mp hc.1
  · exact absurd h (by simp)

/-- Witness for the amended C1 at the unsorted input (1,0),(0,1) of size (2,2). -/
theorem init_unsorted_hint_sorts_witness :
    (SparseStorage.mk [0, 1] [1, 0] none (2, 2) none none none none
        none none).linKeys.Sorted (· ≤ ·) :=
  init_unsorted_hint_sorts [1, 0] [0, 1] none (some (2, 2)) none none none none none none _
    (by decide)


theorem getD_map_range {α : Type} (f : Nat → α) (n i : Nat) (h : i < n) (d : α) :
    ((List.range n).map f).getD i d = f i := by
  rw [List.getD_eq_getElem _ _ (by simpa using h)]
  simp

theorem countLt_succ (ids : List Int) (i : Nat) :
    (ids.filter fun b => decide (b < ((i : Int) + 1))).length
      = (ids.filter fun b => decide (b < (i : Int))).length
        + (ids.filter fun b => decide (b = (i : Int))).length := by
  induction ids with
  | nil => simp
  | cons a l ih =>
    by_cases h1 : a < (i : Int)
    · have h2 : a < (i : Int) + 1 := by omega
      have h3 : ¬(a = (i : Int)) := by omega
      simp [List.filter_cons, h1, h2, h3, ih]
      omega
    · by_cases h2 : a = (i : Int)
      · have h3 : a < (i : Int) + 1 := by omega
        simp [List.filter_cons, h1, h2, h3, ih]
        omega
      · have h3 : ¬(a < (i : Int) + 1) := by omega
        simp [List.filter_cons, h1, h2, h3, ih]

theorem scanl_add_getD_succ : ∀ (l : List Int) (b : Int) (j : Nat), j < l.length →
    (l.scanl (· + ·) b).getD (j + 1) 0 = (l.scanl (· + ·) b).getD j 0 + l.getD j 0 := by
  intro l
  induction l with
  | nil => intro b j h; simp at h
  | cons a t ih =>
    intro b j h
    cases j with
    | zero => simp [List.scanl_cons]
    | succ j' =>
      simp only [List.scanl_cons, List.getD_cons_succ, List.cons_append, List.nil_append]
      exact ih (b + a) j' (by simpa using h)

theorem scanl_add_getD_last : ∀ (l : List Int) (b : Int),
    (l.scanl (· + ·) b).getD l.length 0 = b + l.sum := by
  intro l
  induction l with
  | nil => intro b; simp [List.scanl]
  | cons a t ih =>
    intro b
    simp only [List.scanl_cons, List.length_cons, List.getD_cons_succ, List.cons_append,
      List.nil_append, List.sum_cons]
    rw [ih (b + a)]
    ring

theorem sum_counts_eq (l : List Int) (hnn : ∀ c ∈ l, 0 ≤ c) : ∀ m : Nat,
    ((List.range m).map fun (j : Nat) =>
        ((l.filter fun c => decide (c = (j : Int))).length : Int)).sum
      = ((l.filter fun c => decide (c < (m : Int))).length : Int) := by
  intro m
  induction m with
  | zero =>
    rw [List.range_zero, List.map_nil, List.sum_nil,
        List.filter_eq_nil_iff.mpr (fun a ha => by have := hnn a ha; simp; omega)]
    simp
  | succ m' ih =>
    rw [List.range_succ, List.map_append, List.sum_append]
    simp only [List.map_cons, List.map_nil, List.sum_cons, List.sum_nil]
    rw [ih]
    have hc : ((m' : Int) + 1) = (((m' + 1 : Nat)) : Int) := by push_cast; ring
    rw [← hc, countLt_succ l m']
    push_cast
    ring


theorem rowptrPrim_length (ids : List Int) (m : Nat) : (rowptrPrim ids m).length = m + 1 := by
  unfold rowptrPrim; simp

theorem rowptrPrim_getD (ids : List Int) (m i : Nat) (h : i ≤ m) :
    (rowptrPrim ids m).getD i 0 = ((ids.filter fun b => decide (b < (i : Int))).length : Int) := by
  unfold rowptrPrim
  exact getD_map_range _ _ _ (by omega) _

theorem rowptrPrim_zero (ids : List Int) (m : Nat) (h : ∀ r ∈ ids, 0 ≤ r) :
    (rowptrPrim ids m).getD 0 0 = 0 := by
  rw [rowptrPrim_getD ids m 0 (by omega)]
  rw [List.filter_eq_nil_iff.mpr (fun a ha => by have := h a ha; simp; omega)]
  simp

theorem rowptrPrim_last (ids : List Int) (m : Nat) (h : ∀ r ∈ ids, r < (m : Int)) :
    (rowptrPrim ids m).getD m 0 = (ids.length : Int) := by
  rw [rowptrPrim_getD ids m m (by omega)]
  rw [List.filter_eq_self.mpr (fun a ha => by have := h a ha; simpa)]

theorem getD_drop_one (l : List Int) (i : Nat) (h : i + 1 < l.length) :
    (l.drop 1).getD i 0 = l.getD (i + 1) 0 := by
  rw [List.getD_eq_getElem _ _ (by rw [List.length_drop]; omega),
      List.getD_eq_getElem _ _ h]
  rw [List.getElem_drop]
  congr 1
  omega

theorem getD_dropLast (l : List Int) (i : Nat) (h : i + 1 < l.length) :
    l.dropLast.getD i 0 = l.getD i 0 := by
  rw [List.getD_eq_getElem _ _ (by rw [List.length_dropLast]; omega),
      List.getD_eq_getElem _ _ (by omega)]
  rw [List.getElem_dropLast]

theorem getD_zipWith0 (f : Int → Int → Int) (as bs : List Int) (i : Nat)
    (ha : i < as.length) (hb : i < bs.length) :
    (List.zipWith f as bs).getD i 0 = f (as.getD i 0) (bs.getD i 0) :=
  getD_zipWith f as bs i ha hb

theorem scanl_getD_zero (l : List Int) (b : Int) : (l.scanl (· + ·) b).getD 0 0 = b := by
  cases l <;> simp [List.scanl_cons, List.scanl]


/-- C6: on a storage with no pre-supplied derived arrays and in-range
non-negative coordinates, the materialized rowptr has length num_rows + 1,
starts at 0, ends at nnz, and its consecutive differences are rowcount; the
materialized colptr (the cumulative-sum path) likewise starts at 0, ends at
nnz, and its consecutive differences are colcount. -/
theorem ptr_count_relations (s : SparseStorage)
    (hrc : s._rowcount = none) (hrp : s._rowptr = none)
    (hcc : s._colcount = none) (hcp : s._colptr = none) (hp : s._csr2csc = none)
    (hlen : s.row.length = s.col.length)
    (hrow : ∀ r ∈ s.row, 0 ≤ r ∧ r < (s.sparse_size.1 : Int))
    (hcol : ∀ c ∈ s.col, 0 ≤ c ∧ c < (s.sparse_size.2 : Int)) :
    s.rowptr.length = s.sparse_size.1 + 1
      ∧ s.rowptr.getD 0 0 = 0
      ∧ s.rowptr.getD s.sparse_size.1 0 = (s.nnz : Int)
      ∧ (∀ i < s.sparse_size.1,
          s.rowptr.getD (i + 1) 0 - s.rowptr.getD i 0 = s.rowcount.getD i 0)
      ∧ s.colptr = some (cumsum0 s.colcount)
      ∧ (cumsum0 s.colcount).length = s.sparse_size.2 + 1
      ∧ (cumsum0 s.colcount).getD 0 0 = 0
      ∧ (cumsum0 s.colcount).getD s.sparse_size.2 0 = (s.nnz : Int)
      ∧ (∀ j < s.sparse_size.2,
          (cumsum0 s.colcount).getD (j + 1) 0 - (cumsum0 s.colcount).getD j 0
            = s.colcount.getD j 0) := by
  have hrowptr : s.rowptr = rowptrPrim s.row s.sparse_size.1 := by
    unfold SparseStorage.rowptr; rw [hrp]
  have hrowcount : s.rowcount = List.zipWith (· - ·) (s.rowptr.drop 1) s.rowptr.dropLast := by
    unfold SparseStorage.rowcount; rw [hrc]
  have hcolcount : s.colcount = scatter_add_ones s.col s.sparse_size.2 := by
    unfold SparseStorage.colcount; rw [hcc, hcp]
  have hcolptr : s.colptr = some (cumsum0 s.colcount) := by
    unfold SparseStorage.colptr; rw [hcp, hp]
  have hccl : (scatter_add_ones s.col s.sparse_size.2).length = s.sparse_size.2 := by
    unfold scatter_add_ones; simp
  have hrpl : (rowptrPrim s.row s.sparse_size.1).length = s.sparse_size.1 + 1 :=
    rowptrPrim_length _ _
  refine ⟨?_, ?_, ?_, ?_, hcolptr, ?_, ?_, ?_, ?_⟩
  · rw [hrowptr, rowptrPrim_length]
  · rw [hrowptr]
    exact rowptrPrim_zero _ _ (fun r hr => (hrow r hr).1)
  · rw [hrowptr]
    exact rowptrPrim_last _ _ (fun r hr => (hrow r hr).2)
  · intro i hi
    rw [hrowcount, hrowptr]
    rw [getD_zipWith0 _ _ _ i (by rw [List.length_drop, hrpl]; omega)
        (by rw [List.length_dropLast, hrpl]; omega)]
    rw [getD_drop_one _ _ (by rw [hrpl]; omega), getD_dropLast _ _ (by rw [hrpl]; omega)]
  · rw [hcolcount]
    unfold cumsum0
    rw [List.length_scanl, hccl]
  · rw [hcolcount]
    exact scanl_getD_zero _ 0
  · rw [hcolcount]
    unfold cumsum0
    have hlast := scanl_add_getD_last (scatter_add_ones s.col s.sparse_size.2) 0
    rw [hccl] at hlast
    rw [hlast, zero_add]
    have hsum := sum_counts_eq s.col (fun c hc => (hcol c hc).1) s.sparse_size.2
    unfold scatter_add_ones
    rw [hsum]
    rw [List.filter_eq_self.mpr (fun a ha => by have := hcol a ha; simpa using this.2)]
    simp [SparseStorage.nnz, hlen]
  · intro j hj
    rw [hcolcount]
    unfold cumsum0
    have hsucc := scanl_add_getD_succ (scatter_add_ones s.col s.sparse_size.2) 0 j
      (by rw [hccl]; omega)
    omega


theorem strictMonoBounded_id (f : Nat → Nat) (n : Nat)
    (hmono : ∀ a b, a < b → b < n → f a < f b)
    (hbound : ∀ j, j < n → f j < n) : ∀ j, j < n → f j = j := by
  have hlow : ∀ j, j < n → j ≤ f j := by
    intro j
    induction j with
    | zero => intro _; omega
    | succ j' ih =>
      intro hj
      have h1 := ih (by omega)
      have h2 := hmono j' (j' + 1) (by omega) hj
      omega
  have hup : ∀ d j, j + d < n → f j + d ≤ f (j + d) := by
    intro d
    induction d with
    | zero => intro j _; simp
    | succ d' ih =>
      intro j hj
      have h1 := ih j (by omega)
      have h2 := hmono (j + d') (j + d' + 1) (by omega) (by omega)
      have h3 : j + (d' + 1) = j + d' + 1 := by omega
      rw [h3]
      omega
  intro j hj
  have h1 := hlow j hj
  have h2 := hup (n - 1 - j) j (by omega)
  have h3 := hbound (j + (n - 1 - j)) (by omega)
  omega

theorem argsort_inverse (p : List Nat) (hp : List.Perm p (List.range p.length)) :
    ∀ t, t < p.length → (argsort p).getD (p.getD t 0) 0 = t := by
  have hql : (argsort p).length = p.length :=
    (argsort_perm p).length_eq.trans (List.length_range p.length)
  have hqmem : ∀ x ∈ argsort p, x < p.length := fun x hx =>
    List.mem_range.mp ((argsort_perm p).mem_iff.mp hx)
  have hpmem : ∀ x ∈ p, x < p.length := fun x hx => List.mem_range.mp (hp.mem_iff.mp hx)
  have hqnodup : (argsort p).Nodup := (argsort_perm p).nodup_iff.mpr (List.nodup_range _)
  have hpnodup : p.Nodup := hp.nodup_iff.mpr (List.nodup_range _)
  have hsorted := argsort_sorted p
  have hmono : ∀ a b, a < b → b < p.length →
      p.getD ((argsort p).getD a 0) 0 < p.getD ((argsort p).getD b 0) 0 := by
    intro a b hab hb
    have ha' : a < (argsort p).length := by omega
    have hb' : b < (argsort p).length := by omega
    have hrel := List.pairwise_iff_getElem.mp hsorted a b ha' hb' hab
    have hga : (argsort p).getD a 0 = (argsort p)[a] := List.getD_eq_getElem _ _ ha'
    have hgb : (argsort p).getD b 0 = (argsort p)[b] := List.getD_eq_getElem _ _ hb'
    have hqa : (argsort p)[a] < p.length := hqmem _ (List.getElem_mem ha')
    have hqb : (argsort p)[b] < p.length := hqmem _ (List.getElem_mem hb')
    rcases hrel with hlt | ⟨heq, _⟩
    · rw [hga, hgb]
      exact hlt
    · exfalso
      have heq' : p[(argsort p)[a]] = p[(argsort p)[b]] := by
        have e1 : p.getD ((argsort p)[a]) default = p[(argsort p)[a]] :=
          List.getD_eq_getElem _ _ hqa
        have e2 : p.getD ((argsort p)[b]) default = p[(argsort p)[b]] :=
          List.getD_eq_getElem _ _ hqb
        rw [← e1, ← e2]
        exact heq
      have : (argsort p)[a] = (argsort p)[b] := (hpnodup.getElem_inj_iff).mp heq'
      have : a = b := (hqnodup.getElem_inj_iff).mp this
      omega
  have hbound : ∀ j, j < p.length → p.getD ((argsort p).getD j 0) 0 < p.length := by
    intro j hj
    have hj' : j < (argsort p).length := by omega
    have hga : (argsort p).getD j 0 = (argsort p)[j] := List.getD_eq_getElem _ _ hj'
    have hqa : (argsort p)[j] < p.length := hqmem _ (List.getElem_mem hj')
    rw [hga, List.getD_eq_getElem _ _ hqa]
    exact hpmem _ (List.getElem_mem hqa)
  have hid := strictMonoBounded_id _ _ hmono hbound
  intro t ht
  have hv : p.getD t 0 < p.length := by
    rw [List.getD_eq_getElem _ _ ht]
    exact hpmem _ (List.getElem_mem ht)
  have hfv := hid (p.getD t 0) hv
  have hqv : (argsort p).getD (p.getD t 0) 0 < p.length := by
    have hj' : p.getD t 0 < (argsort p).length := by omega
    rw [List.getD_eq_getElem _ _ hj']
    exact hqmem _ (List.getElem_mem hj')
  have heq' : p[(argsort p).getD (p.getD t 0) 0] = p[t] := by
    have e1 : p.getD ((argsort p).getD (p.getD t 0) 0) 0
        = p[(argsort p).getD (p.getD t 0) 0] := List.getD_eq_getElem _ _ hqv
    have e2 : p.getD t 0 = p[t] := List.getD_eq_getElem _ _ ht
    rw [← e1, ← e2]
    exact hfv.trans rfl
  exact (hpnodup.getElem_inj_iff).mp heq'


/-- C7: on a storage whose permutation caches are not pre-supplied, csr2csc is
the argsort of the column-major key num_rows * col + row, csc2csr is the
argsort of csr2csc, and the two are mutually inverse:
csc2csr[csr2csc[k]] = k for every k below nnz. -/
theorem csr2csc_csc2csr_inverse (s : SparseStorage)
    (h1 : s._csr2csc = none) (h2 : s._csc2csr = none)
    (hlen : s.row.length = s.col.length) :
    s.csr2csc = argsort (colKeysOf s.sparse_size.1 s.row s.col)
      ∧ s.csc2csr = argsort s.csr2csc
      ∧ ∀ k, k < s.nnz → s.csc2csr.getD (s.csr2csc.getD k 0) 0 = k := by
  have e1 : s.csr2csc = argsort (colKeysOf s.sparse_size.1 s.row s.col) := by
    unfold SparseStorage.csr2csc; rw [h1]
  have e2 : s.csc2csr = argsort s.csr2csc := by
    unfold SparseStorage.csc2csr; rw [h2]
  refine ⟨e1, e2, ?_⟩
  intro k hk
  rw [e2, e1]
  have hkl : (colKeysOf s.sparse_size.1 s.row s.col).length = s.nnz := by
    unfold colKeysOf
    rw [List.length_zipWith]
    unfold SparseStorage.nnz
    omega
  have hpl : (argsort (colKeysOf s.sparse_size.1 s.row s.col)).length = s.nnz := by
    rw [(argsort_perm _).length_eq, List.length_range, hkl]
  have hperm : List.Perm (argsort (colKeysOf s.sparse_size.1 s.row s.col))
      (List.range (argsort (colKeysOf s.sparse_size.1 s.row s.col)).length) := by
    rw [hpl, ← hkl]
    exact argsort_perm _
  exact argsort_inverse _ hperm k (by omega)


def firstMask (x : Int) (k : List Int) : List Bool :=
  ((prevList x k).zip k).map fun ab => decide (ab.1 < ab.2)

theorem coalesceMask_eq (k : List Int) : coalesceMask k = firstMask (-1) k := rfl

theorem firstMask_cons (x a : Int) (l : List Int) :
    firstMask x (a :: l) = decide (x < a) :: firstMask a l := by
  unfold firstMask
  rw [prevZip_cons]
  rfl

theorem maskSelect_true_cons {α : Type} (m : List Bool) (a : α) (l : List α) :
    maskSelect (true :: m) (a :: l) = a :: maskSelect m l := rfl

theorem maskSelect_false_cons {α : Type} (m : List Bool) (a : α) (l : List α) :
    maskSelect (false :: m) (a :: l) = maskSelect m l := rfl

theorem maskSelect_zipWith {α β γ : Type} (f : α → β → γ) :
    ∀ (m : List Bool) (as : List α) (bs : List β),
      List.zipWith f (maskSelect m as) (maskSelect m bs)
        = maskSelect m (List.zipWith f as bs) := by
  intro m
  induction m with
  | nil => intro as bs; cases as <;> cases bs <;> rfl
  | cons b m' ih =>
    intro as bs
    cases as with
    | nil => cases b <;> rfl
    | cons a as' =>
      cases bs with
      | nil =>
        cases b <;> simp [maskSelect_true_cons, maskSelect_false_cons, maskSelect]
      | cons c bs' =>
        cases b
        · rw [maskSelect_false_cons, maskSelect_false_cons, List.zipWith_cons_cons,
              maskSelect_false_cons]
          exact ih as' bs'
        · rw [maskSelect_true_cons, maskSelect_true_cons, List.zipWith_cons_cons,
              List.zipWith_cons_cons, maskSelect_true_cons, ih as' bs']


theorem sel_strict : ∀ (x : Int) (k : List Int), List.Sorted (· ≤ ·) k →
    (∀ y ∈ k, x ≤ y) →
    List.Chain' (· < ·) (maskSelect (firstMask x k) k)
      ∧ ∀ y ∈ maskSelect (firstMask x k) k, x < y := by
  intro x k
  induction k generalizing x with
  | nil =>
    intro _ _
    exact ⟨List.chain'_nil, by simp [firstMask, maskSelect, prevList]⟩
  | cons a l ih =>
    intro hs hx
    have hsl : List.Sorted (· ≤ ·) l := hs.of_cons
    have hal : ∀ y ∈ l, a ≤ y := fun y hy => List.rel_of_sorted_cons hs y hy
    have hxa : x ≤ a := hx a (List.mem_cons_self a l)
    obtain ⟨ihc, ihm⟩ := ih a hsl hal
    rw [firstMask_cons]
    by_cases hcmp : x < a
    · rw [decide_eq_true hcmp, maskSelect_true_cons]
      constructor
      · exact List.chain'_cons'.mpr ⟨fun y hy => ihm y (List.mem_of_mem_head? hy), ihc⟩
      · intro y hy
        rcases List.mem_cons.mp hy with rfl | hy'
        · exact hcmp
        · exact lt_trans hcmp (ihm y hy')
    · rw [decide_eq_false hcmp, maskSelect_false_cons]
      have hxeq : x = a := le_antisymm hxa (by omega)
      exact ⟨ihc, fun y hy => hxeq ▸ ihm y hy⟩

theorem chain_lt_mask_all : ∀ (x : Int) (k : List Int), List.Chain' (· < ·) k →
    (∀ y ∈ k.head?, x < y) → (firstMask x k).all id = true := by
  intro x k
  induction k generalizing x with
  | nil => intro _ _; rfl
  | cons a l ih =>
    intro hc hh
    rw [firstMask_cons]
    have hxa : x < a := hh a rfl
    obtain ⟨hhd, htl⟩ := List.chain'_cons'.mp hc
    rw [List.all_cons]
    have h1 : (firstMask a l).all id = true := ih a htl hhd
    simp [hxa, h1]

theorem coalesce_fastpath (s : SparseStorage) (r : List Int → Int)
    (h : (coalesceMask s.linKeys).all id = true) : s.coalesce r = some s := by
  unfold SparseStorage.coalesce
  simp [h]

theorem init_sorted_true_some (row col : List Int) (value : Option (List Int))
    (sz : Nat × Nat) (rowcount rowptr colcount colptr : Option (List Int))
    (csr2csc csc2csr : Option (List Nat)) (t : SparseStorage)
    (h : SparseStorage.init row col value (some sz) rowcount rowptr colcount colptr
        csr2csc csc2csr true = some t) :
    t = ⟨row, col, value, sz, rowcount, rowptr, colcount, colptr, csr2csc, csc2csr⟩ := by
  unfold SparseStorage.init at h
  split at h
  · simp at h
  · rename_i sz' hsz
    have hsz' : sz' = sz := by simpa using hsz.symm
    subst hsz'
    split at h
    · rw [if_pos rfl] at h
      injection h with h'
      exact h'.symm
    · simp at h


/-- C8: on a storage satisfying the row-major sortedness invariant with
non-negative keys, coalesce is idempotent (coalescing the result of coalesce
returns it unchanged), and on an instance whose linear keys are already
strictly increasing coalesce returns that very instance (the fast path). -/
theorem coalesce_idempotent (s : SparseStorage) (r : List Int → Int)
    (hsorted : List.Sorted (· ≤ ·) s.linKeys) (hnn : ∀ y ∈ s.linKeys, 0 ≤ y) :
    ((s.coalesce r).bind fun t => t.coalesce r) = s.coalesce r
      ∧ (List.Chain' (· < ·) s.linKeys → s.coalesce r = some s) := by
  constructor
  · by_cases hall : (coalesceMask s.linKeys).all id = true
    · rw [coalesce_fastpath s r hall]
      show s.coalesce r = some s
      exact coalesce_fastpath s r hall
    · have hexp : s.coalesce r
          = SparseStorage.init (maskSelect (coalesceMask s.linKeys) s.row)
            (maskSelect (coalesceMask s.linKeys) s.col)
            (s.value.map fun v => segment_csr
              ((cumsumI ((coalesceMask s.linKeys).map fun b => if b then (1 : Int) else 0)).map
                (· - 1)) v r)
            (some s.sparse_size) none none none none none none true := by
        unfold SparseStorage.coalesce
        rw [if_neg hall]
      rcases hinit : SparseStorage.init (maskSelect (coalesceMask s.linKeys) s.row)
          (maskSelect (coalesceMask s.linKeys) s.col)
          (s.value.map fun v => segment_csr
            ((cumsumI ((coalesceMask s.linKeys).map fun b => if b then (1 : Int) else 0)).map
              (· - 1)) v r)
          (some s.sparse_size) none none none none none none true with - | t
      · rw [hexp, hinit]
        rfl
      · have hchar := init_sorted_true_some _ _ _ _ _ _ _ _ _ _ _ hinit
        rw [hexp, hinit]
        show t.coalesce r = some t
        apply coalesce_fastpath
        have htkeys : t.linKeys = maskSelect (coalesceMask s.linKeys) s.linKeys := by
          rw [hchar]
          show List.zipWith _ (maskSelect (coalesceMask s.linKeys) s.row)
            (maskSelect (coalesceMask s.linKeys) s.col) = _
          rw [maskSelect_zipWith]
          rfl
        rw [htkeys]
        have hsel := sel_strict (-1) s.linKeys hsorted
          (fun y hy => by have := hnn y hy; omega)
        exact chain_lt_mask_all (-1) _ hsel.1 (fun y hy => hsel.2 y (List.mem_of_mem_head? hy))
  · intro hlt
    apply coalesce_fastpath
    exact chain_lt_mask_all (-1) _ hlt
      (fun y hy => by have := hnn y (List.mem_of_mem_head? hy); omega)


/-- Witness for C6 on the storage with entries (0,1),(0,1),(1,0), size (2,2). -/
theorem ptr_count_relations_witness :
    (SparseStorage.mk [0, 0, 1] [1, 1, 0] none (2, 2) none none none none
        none none).rowptr.getD 2 0
      = ((SparseStorage.mk [0, 0, 1] [1, 1, 0] none (2, 2) none none none none
          none none).nnz : Int) :=
  (ptr_count_relations _ rfl rfl rfl rfl rfl (by decide) (by decide) (by decide)).2.2.1

/-- Witness for C7 on the storage with entries (0,1),(1,0), size (2,2), k = 0. -/
theorem csr2csc_csc2csr_inverse_witness :
    (SparseStorage.mk [0, 1] [1, 0] none (2, 2) none none none none
        none none).csc2csr.getD
      ((SparseStorage.mk [0, 1] [1, 0] none (2, 2) none none none none
        none none).csr2csc.getD 0 0) 0 = 0 :=
  (csr2csc_csc2csr_inverse _ rfl rfl (by decide)).2.2 0 (by decide)

/-- Witness for C8 on the storage with entries (0,1),(0,1),(1,0), values
1,2,3, size (2,2), under the sum reduction. -/
theorem coalesce_idempotent_witness :
    (((SparseStorage.mk [0, 0, 1] [1, 1, 0] (some [1, 2, 3]) (2, 2) none none none none
        none none).coalesce fun l => l.foldr (· + ·) 0).bind fun t =>
          t.coalesce fun l => l.foldr (· + ·) 0)
      = (SparseStorage.mk [0, 0, 1] [1, 1, 0] (some [1, 2, 3]) (2, 2) none none none none
          none none).coalesce fun l => l.foldr (· + ·) 0 :=
  (coalesce_idempotent _ _ (by decide) (by decide)).1

end TorchSparse
